import Mathlib

/-!
Shallow embedding of `src/librustc_codegen_llvm/common.rs`: the constant
materialization layer (`ConstMethods` on `CodegenCx`), the shift emitters
(`build_unchecked_lshift` / `build_unchecked_rshift` / `shift_mask_val`),
the `const_cstr` intern cache, and `langcall`.

Machine integers are modelled as `Nat` reduced modulo `2 ^ width`; LLVM
value handles become an explicit inductive; the mutable compilation
context (`CodegenCx`) becomes explicit state passing; aborts (assertion
failures, `bug!`) become `Option`/`Except` failures.
-/

namespace Codegen

/-- The slice of the LLVM type system used by `common.rs`: integer types with a
bit width, vector types with a length and element type, and the remaining kinds
(which the shift-mask code treats as a single failing bucket). -/
inductive LLType where
  | Integer (width : Nat)
  | Vector (len : Nat) (elem : LLType)
  | Pointer
  | Float
  | Double
  | Struct
  | Function
  | Void
deriving DecidableEq, Repr

/-- Embeds `llvm::TypeKind`, as queried by `type_kind`. -/
inductive TypeKind where
  | Integer
  | Vector
  | Pointer
  | Float
  | Double
  | Struct
  | Function
  | Void
deriving DecidableEq, Repr

/-- Embeds `CodegenCx::type_kind` / `llvm::LLVMRustGetTypeKind`. -/
def typeKind : LLType → TypeKind
  | .Integer _ => .Integer
  | .Vector _ _ => .Vector
  | .Pointer => .Pointer
  | .Float => .Float
  | .Double => .Double
  | .Struct => .Struct
  | .Function => .Function
  | .Void => .Void

/-- Embeds `CodegenCx::element_type` (only defined on vector types here). -/
def element_type : LLType → Option LLType
  | .Vector _ e => some e
  | _ => none

/-- Embeds `CodegenCx::vector_length`. -/
def vector_length : LLType → Option Nat
  | .Vector n _ => some n
  | _ => none

/-- Embeds `CodegenCx::int_width` (`llvm::LLVMGetIntTypeWidth`). -/
def int_width : LLType → Option Nat
  | .Integer w => some w
  | _ => none

/-- LLVM constant values, as far as `common.rs` observes them: integer
constants carry their declared width and their bit pattern (a `Nat` reduced
modulo `2 ^ width` at construction), aggregates carry their elements, byte
string constants carry their bytes, and globals are identified by the fresh
symbol id under which they were defined. -/
inductive Value where
  | int (width : Nat) (val : Nat)
  | vec (elts : List Value)
  | struct (packed : Bool) (elts : List Value)
  | arr (elts : List Value)
  | str (bytes : List Nat)
  | global (g : Nat)

/-- Embeds `const_int`: `llvm::LLVMConstInt(t, i as u64, True)` — the `i64` value is
sign-extended or truncated to the declared width, i.e. reduced modulo `2 ^ w`
in two's complement. Non-integer types are a backend precondition violation. -/
def const_int (t : LLType) (i : Int) : Option Value :=
  match t with
  | .Integer w => some (.int w (Int.toNat (i % ((2 ^ w : Nat) : Int))))
  | _ => none

/-- Embeds `const_uint`: `llvm::LLVMConstInt(t, i, False)` — zero-extended or
truncated to the declared width. -/
def const_uint (t : LLType) (i : Nat) : Option Value :=
  match t with
  | .Integer w => some (.int w (i % 2 ^ w))
  | _ => none

/-- Value of a little-endian list of 64-bit limbs, each taken modulo `2 ^ 64`. -/
def wordsValue : List Nat → Nat
  | [] => 0
  | wd :: ws => wd % 2 ^ 64 + 2 ^ 64 * wordsValue ws

/-- Embeds `llvm::LLVMConstIntOfArbitraryPrecision`: builds an integer constant of
the given type from 64-bit limbs; the combined value is reduced to the
declared width. -/
def LLVMConstIntOfArbitraryPrecision (t : LLType) (words : List Nat) : Option Value :=
  match t with
  | .Integer w => some (.int w (wordsValue words % 2 ^ w))
  | _ => none

/-- Embeds `const_uint_big`: decomposes the `u128` into the two-limb array
`[u as u64, (u >> 64) as u64]` and hands it to the backend. -/
def const_uint_big (t : LLType) (u : Nat) : Option Value :=
  LLVMConstIntOfArbitraryPrecision t [u % 2 ^ 64, (u >>> 64) % 2 ^ 64]

/-- The target data layout, as far as `const_usize` consults it. -/
structure DataLayout where
  pointerSizeBits : Nat
deriving DecidableEq, Repr

/-- Embeds `const_usize`: `assert!(i < (1 << bit_size))` when the pointer width is
below 64 bits (assertion failure modelled as `none`), then a `const_uint` at
the pointer-sized integer type `isize_ty`. -/
def const_usize (dl : DataLayout) (i : Nat) : Option Value :=
  if dl.pointerSizeBits < 64 then
    if i < 2 ^ dl.pointerSizeBits then const_uint (.Integer dl.pointerSizeBits) i
    else none
  else const_uint (.Integer dl.pointerSizeBits) i

/-- Embeds `struct_in_context` / `llvm::LLVMConstStructInContext`. -/
def struct_in_context (elts : List Value) (packed : Bool) : Value :=
  .struct packed elts

/-- Embeds `const_struct`. -/
def const_struct (elts : List Value) (packed : Bool) : Value :=
  struct_in_context elts packed

/-- Embeds `llvm::LLVMConstExtractValue` on an aggregate constant: the element at the
given index; out-of-range indices or non-aggregate operands violate the
backend precondition. -/
def LLVMConstExtractValue (v : Value) (idx : Nat) : Option Value :=
  match v with
  | .struct _ elts => elts[idx]?
  | .arr elts => elts[idx]?
  | _ => none

/-- Embeds `const_get_elt`: `assert_eq!(idx as c_uint as u64, idx)` (the index must
survive the round-trip through the 32-bit `c_uint`), then
`LLVMConstExtractValue` at that index. Both failure modes are `none`. -/
def const_get_elt (v : Value) (idx : Nat) : Option Value :=
  if idx % 2 ^ 32 = idx then LLVMConstExtractValue v idx else none

/-- Embeds `is_const_integral`: `llvm::LLVMIsAConstantInt(v).is_some()`. -/
def is_const_integral : Value → Bool
  | .int _ _ => true
  | _ => false

/-- Sign extension of a `w`-bit pattern to 128 bits. -/
def sext128 (w : Nat) (val : Nat) : Nat :=
  let v := val % 2 ^ w
  if v < 2 ^ (w - 1) then v else v + (2 ^ 128 - 2 ^ w)

/-- Modelled from the spec: `LLVMRustConstInt128Get` (the rustllvm C++
wrapper, not under `src/`) performs the 128-bit extraction behind
`const_to_opt_u128`: for an integer constant whose width fits in 128 bits it
returns the value, zero- or sign-extended to 128 bits, as `(hi, lo)` 64-bit
limbs; a wider constant cannot be decoded and reports failure. -/
def LLVMRustConstInt128Get (v : Value) (sign_ext : Bool) : Option (Nat × Nat) :=
  match v with
  | .int w val =>
    if w ≤ 128 then
      let x := if sign_ext then sext128 w val else val % 2 ^ w
      some ((x >>> 64) % 2 ^ 64, x % 2 ^ 64)
    else none
  | _ => none

/-- Embeds `hi_lo_to_u128`: `((hi as u128) << 64) | (lo as u128)`. -/
def hi_lo_to_u128 (lo hi : Nat) : Nat :=
  (hi <<< 64) ||| lo

/-- Embeds `const_to_opt_u128`: probe `is_const_integral`, then decode through
`LLVMRustConstInt128Get`, recombining the limbs with `hi_lo_to_u128`;
every failure is an absent result, never an abort. -/
def const_to_opt_u128 (v : Value) (sign_ext : Bool) : Option Nat :=
  if is_const_integral v then
    match LLVMRustConstInt128Get v sign_ext with
    | some (hi, lo) => some (hi_lo_to_u128 lo hi)
    | none => none
  else none

/-! ## ShiftEmitter (`build_unchecked_lshift` / `build_unchecked_rshift`) -/

/-- The source-level (logical) integer types whose signedness
`build_unchecked_rshift` consults via `Ty::is_signed`. -/
inductive RustIntTy where
  | signed (bits : Nat)
  | unsigned (bits : Nat)
deriving DecidableEq, Repr

/-- Embeds `ty::Ty::is_signed`. -/
def RustIntTy.is_signed : RustIntTy → Bool
  | .signed _ => true
  | .unsigned _ => false

/-- Embeds `u64` bitwise NOT (`!val` on a `u64`). -/
def u64_not (v : Nat) : Nat :=
  2 ^ 64 - 1 - v % 2 ^ 64

/-- Reinterpretation of a `u64` bit pattern as an `i64` (`as i64`). -/
def i64_of_u64 (v : Nat) : Int :=
  if v % 2 ^ 64 < 2 ^ 63 then ((v % 2 ^ 64 : Nat) : Int)
  else ((v % 2 ^ 64 : Nat) : Int) - 2 ^ 64

/-- Embeds `CodegenCx::vector_splat`: a vector constant repeating one lane value. -/
def vector_splat (len : Nat) (v : Value) : Value :=
  .vec (List.replicate len v)

/-- Embeds `shift_mask_val`: dispatch on the type kind; an integer type of width `w`
yields the constant `w - 1` (complemented through two's-complement `!val as
i64` when `invert` is set); a vector type recursively masks the lane type and
splats across the mask type's vector length; every other kind is
`bug!` (modelled as `none`), keeping the dispatch exhaustive. -/
def shift_mask_val (llty mask_llty : LLType) (invert : Bool) : Option Value :=
  match llty with
  | .Integer w =>
    let val := w - 1
    if invert then const_int mask_llty (i64_of_u64 (u64_not val))
    else const_uint mask_llty val
  | .Vector _ elem =>
    match element_type mask_llty with
    | none => none
    | some lane_mask_ty =>
      match shift_mask_val elem lane_mask_ty invert with
      | none => none
      | some mask =>
        match vector_length mask_llty with
        | none => none
        | some len => some (vector_splat len mask)
  | _ => none

/-- Embeds `CodegenCx::val_ty` / `llvm::LLVMTypeOf`, on the values the shift path
inspects (integer operands and vectors of them). -/
def val_ty : Value → Option LLType
  | .int w _ => some (.Integer w)
  | .vec (v :: vs) => (val_ty v).map (fun t => LLType.Vector (vs.length + 1) t)
  | _ => none

/-- Embeds `Builder::and` on integer operands (widths must agree). -/
def build_and (a b : Value) : Option Value :=
  match a, b with
  | .int w x, .int w2 y => if w = w2 then some (.int w (x &&& y)) else none
  | _, _ => none

/-- Embeds `Builder::shl`: left shift; the result wraps at the operand width, and a
count at or above the width is undefined (`none` — the masking below makes
this unreachable). -/
def build_shl (a b : Value) : Option Value :=
  match a, b with
  | .int w x, .int w2 c =>
    if w = w2 ∧ c < w then some (.int w ((x <<< c) % 2 ^ w)) else none
  | _, _ => none

/-- Embeds `Builder::lshr`: zero-fill (logical) right shift. -/
def build_lshr (a b : Value) : Option Value :=
  match a, b with
  | .int w x, .int w2 c =>
    if w = w2 ∧ c < w then some (.int w ((x % 2 ^ w) >>> c)) else none
  | _, _ => none

/-- The signed reading of a `w`-bit pattern. -/
def to_signed (w x : Nat) : Int :=
  if x % 2 ^ w < 2 ^ (w - 1) then ((x % 2 ^ w : Nat) : Int)
  else ((x % 2 ^ w : Nat) : Int) - 2 ^ w

/-- Embeds `Builder::ashr`: sign-preserving (arithmetic) right shift. -/
def build_ashr (a b : Value) : Option Value :=
  match a, b with
  | .int w x, .int w2 c =>
    if w = w2 ∧ c < w then
      some (.int w (Int.toNat ((to_signed w x >>> c) % ((2 ^ w : Nat) : Int))))
    else none
  | _, _ => none

/-- Modelled from the spec: `base::cast_shift_expr_rhs` is not under `src/`.
It brings the shift-count operand to the shifted operand's integer width
(zero-extending a narrower count, truncating a wider one), so that the count
is then masked at the operand's own width, per the ShiftEmitter algorithm. -/
def cast_shift_expr_rhs (lhs rhs : Value) : Option Value :=
  match lhs, rhs with
  | .int w _, .int _ c => some (.int w (c % 2 ^ w))
  | _, _ => none

/-- The shift instruction ultimately emitted. -/
inductive ShiftOp where
  | shl
  | ashr
  | lshr
deriving DecidableEq, Repr

/-- Embeds `shift_mask_rhs`: AND the shift count with the
`shift_mask_val` of its own type. -/
def shift_mask_rhs (rhs : Value) : Option Value :=
  match val_ty rhs with
  | none => none
  | some rhs_llty =>
    match shift_mask_val rhs_llty rhs_llty false with
    | none => none
    | some mask => build_and rhs mask

/-- Embeds `build_unchecked_lshift`: cast the count, mask it, emit `shl`. -/
def build_unchecked_lshift (lhs rhs : Value) : Option (ShiftOp × Value) :=
  match cast_shift_expr_rhs lhs rhs with
  | none => none
  | some rhs1 =>
    match shift_mask_rhs rhs1 with
    | none => none
    | some rhs2 =>
      match build_shl lhs rhs2 with
      | none => none
      | some r => some (ShiftOp.shl, r)

/-- Embeds `build_unchecked_rshift`: cast the count, mask it, then emit `ashr` when
the logical operand type is signed and `lshr` otherwise. -/
def build_unchecked_rshift (lhs_t : RustIntTy) (lhs rhs : Value) :
    Option (ShiftOp × Value) :=
  match cast_shift_expr_rhs lhs rhs with
  | none => none
  | some rhs1 =>
    match shift_mask_rhs rhs1 with
    | none => none
    | some rhs2 =>
      if lhs_t.is_signed then
        match build_ashr lhs rhs2 with
        | none => none
        | some r => some (ShiftOp.ashr, r)
      else
        match build_lshr lhs rhs2 with
        | none => none
        | some r => some (ShiftOp.lshr, r)

/-! ## LangItemResolver (`langcall`) -/

abbrev LangItem := Nat

abbrev DefId := Nat

abbrev Span := Nat

/-- The fatal diagnostics `langcall` can emit: located (`span_fatal`) or
location-less (`fatal`). Both abort compilation for the unit, so `langcall`
never returns a value alongside one. -/
inductive FatalDiag where
  | span_fatal (sp : Span) (m : String)
  | fatal (m : String)

/-- The message reported for an absent lang item. -/
def missing_item_msg : String :=
  " missing lang item"

/-- Modelled from the spec: `LanguageItems::require` (rustc metadata, not
under `src/`) resolves a lang item against the aggregated compile-time
metadata, returning its unique definition identifier, or an error message
when the item is absent. -/
def require (items : LangItem → Option DefId) (li : LangItem) :
    Except String DefId :=
  match items li with
  | some d => Except.ok d
  | none => Except.error missing_item_msg

/-- Embeds `langcall`: `require` the item, and on absence emit `span_fatal` at the
given span when one is provided, else a location-less `fatal`. -/
def langcall (items : LangItem → Option DefId) (span : Option Span)
    (msg : String) (li : LangItem) : Except FatalDiag DefId :=
  match require items li with
  | Except.ok d => Except.ok d
  | Except.error s =>
    let m := msg ++ s
    match span with
    | some sp => Except.error (FatalDiag.span_fatal sp m)
    | none => Except.error (FatalDiag.fatal m)

/-! ## StringInternCache (`const_cstr`) -/

/-- Interned string content (`LocalInternedString`), as raw bytes. -/
abbrev Content := List Nat

/-- Embeds `llvm::LLVMConstStringInContext`: the byte string, with a null terminator
appended unless `dont_null_terminate` is set (the source passes
`!null_terminated` for this flag). -/
def LLVMConstStringInContext (s : Content) (dont_null_terminate : Bool) : Value :=
  .str (if dont_null_terminate then s else s ++ [0])

/-- The slice of `CodegenCx` that `const_cstr` reads and writes: the
content-keyed cache, the table of defined globals (symbol id to initializer),
the fresh-symbol counter behind `generate_local_symbol_name`, and — as pure
bookkeeping for the dedup claim — the log of contents for which a global
definition was ever created. -/
structure CxState where
  const_cstr_cache : List (Content × Nat)
  globals : List (Nat × Value)
  symbol_counter : Nat
  defined_log : List Content

/-- Cache lookup (`HashMap::get` keyed by the content alone). -/
def findCache : List (Content × Nat) → Content → Option Nat
  | [], _ => none
  | (k, g) :: rest, s => if k = s then some g else findCache rest s

/-- Lookup of a defined global by symbol id. -/
def findGlobal : List (Nat × Value) → Nat → Option Value
  | [], _ => none
  | (g, v) :: rest, g2 => if g = g2 then some v else findGlobal rest g2

/-- Embeds `const_cstr`: return the cached global for this content if present;
otherwise build the string constant, define a fresh internal global holding
it (`generate_local_symbol_name` yields a fresh symbol, so `define_global`
succeeds), insert it into the cache and return it. -/
def const_cstr (st : CxState) (s : Content) (null_terminated : Bool) :
    Nat × CxState :=
  match findCache st.const_cstr_cache s with
  | some llval => (llval, st)
  | none =>
    let sc := LLVMConstStringInContext s (!null_terminated)
    let g := st.symbol_counter
    (g, ⟨(s, g) :: st.const_cstr_cache, (g, sc) :: st.globals,
         st.symbol_counter + 1, s :: st.defined_log⟩)

/-- A compilation context starts with an empty cache. -/
def initState : CxState :=
  ⟨[], [], 0, []⟩

/-- Run a sequence of `const_cstr` requests against a context. -/
def runCstr (st : CxState) (reqs : List (Content × Bool)) : CxState :=
  reqs.foldl (fun st2 r => (const_cstr st2 r.1 r.2).2) st

/-- The invariant every reachable compilation context satisfies: cached and
defined symbol ids are below the fresh-symbol counter, distinct cached
contents hold distinct ids, and the definition log has one entry per content,
exactly the cached ones. -/
def CacheInv (st : CxState) : Prop :=
  (∀ p ∈ st.const_cstr_cache, p.2 < st.symbol_counter)
  ∧ (∀ p ∈ st.globals, p.1 < st.symbol_counter)
  ∧ (∀ s1 s2 g1 g2, findCache st.const_cstr_cache s1 = some g1 →
      findCache st.const_cstr_cache s2 = some g2 → g1 = g2 → s1 = s2)
  ∧ st.defined_log.Nodup
  ∧ (∀ s, s ∈ st.defined_log ↔ (findCache st.const_cstr_cache s).isSome = true)

/-- A concrete metadata table used to instantiate the `langcall` theorem. -/
def itemsEx : LangItem → Option DefId :=
  fun li => if li = 0 then some 7 else none

/-- A concrete diagnostic message prefix used to instantiate `langcall`. -/
def msg0 : String :=
  ""

/-! ## Theorems -/

/-- Claim C3: `const_usize(i)` fails exactly when `i` does not fit in the
platform's pointer width; on a 32-bit-pointer platform `const_usize(2^32)`
fails and `const_usize(2^32 - 1)` succeeds; with a 64-bit pointer width every
`u64` value is accepted. -/
theorem const_usize_fits_exactly (dl : DataLayout) (i : Nat) (hi : i < 2 ^ 64) :
    ((const_usize dl i).isSome = true ↔ i < 2 ^ dl.pointerSizeBits)
    ∧ const_usize ⟨32⟩ (2 ^ 32) = none
    ∧ (const_usize ⟨32⟩ (2 ^ 32 - 1)).isSome = true
    ∧ (∀ j, j < 2 ^ 64 → (const_usize ⟨64⟩ j).isSome = true) := by
  refine ⟨?_, rfl, rfl, ?_⟩
  · unfold const_usize
    by_cases h : dl.pointerSizeBits < 64
    · by_cases hip : i < 2 ^ dl.pointerSizeBits <;>
        simp [h, hip, const_uint]
    · have hle : 2 ^ 64 ≤ 2 ^ dl.pointerSizeBits :=
        Nat.pow_le_pow_right (by norm_num) (Nat.le_of_not_lt h)
      simp [h, const_uint]
      exact lt_of_lt_of_le hi hle
  · intro j hj
    simp [const_usize, const_uint]

/-- Witness for C3 at a concrete input. -/
theorem const_usize_fits_exactly_w :
    (const_usize ⟨32⟩ 5).isSome = true ↔ 5 < 2 ^ 32 :=
  (const_usize_fits_exactly ⟨32⟩ 5 (by norm_num)).1

/-- Claim C7: `shift_mask_val` on a type whose kind is neither integer-kind
nor vector-kind always takes the hard-failure branch of the exhaustive
type-kind dispatch. -/
theorem shift_mask_val_non_int_vec_bug (t mt : LLType) (inv : Bool)
    (h1 : typeKind t ≠ TypeKind.Integer) (h2 : typeKind t ≠ TypeKind.Vector) :
    shift_mask_val t mt inv = none := by
  cases t <;> first
    | rfl
    | exact absurd rfl h1
    | exact absurd rfl h2

/-- Witness for C7 at a concrete non-integer, non-vector type. -/
theorem shift_mask_val_non_int_vec_bug_w :
    shift_mask_val LLType.Pointer LLType.Pointer false = none :=
  shift_mask_val_non_int_vec_bug LLType.Pointer LLType.Pointer false
    (by decide) (by decide)

/-- Claim C9: `const_get_elt` extracts the element at the given index
(`const_get_elt(const_struct([a, b]), 1) = b`), and fails whenever the index
reaches the aggregate's element count or is not representable in the 32-bit
native index width (`const_get_elt(const_struct([a, b]), 2)` fails). -/
theorem const_get_elt_bounds (a b : Value) (elts : List Value) (p : Bool)
    (idx : Nat) :
    const_get_elt (const_struct [a, b] p) 1 = some b
    ∧ const_get_elt (const_struct [a, b] p) 2 = none
    ∧ (idx < elts.length → idx < 2 ^ 32 →
        const_get_elt (const_struct elts p) idx = elts[idx]?
        ∧ elts[idx]?.isSome = true)
    ∧ (elts.length ≤ idx ∨ 2 ^ 32 ≤ idx →
        const_get_elt (const_struct elts p) idx = none) := by
  refine ⟨rfl, rfl, ?_, ?_⟩
  · intro hlen h32
    have hguard : idx % 2 ^ 32 = idx := Nat.mod_eq_of_lt h32
    constructor
    · unfold const_get_elt
      rw [if_pos hguard]
      rfl
    · simp [List.getElem?_eq_getElem hlen]
  · intro h
    by_cases h32 : idx < 2 ^ 32
    · have hlen : elts.length ≤ idx := by
        rcases h with h | h
        · exact h
        · omega
      have hguard : idx % 2 ^ 32 = idx := Nat.mod_eq_of_lt h32
      unfold const_get_elt
      rw [if_pos hguard]
      show elts[idx]? = none
      exact List.getElem?_eq_none hlen
    · have hne : idx % 2 ^ 32 ≠ idx := by
        have := Nat.mod_lt idx (show 0 < 2 ^ 32 by norm_num)
        omega
      unfold const_get_elt
      rw [if_neg hne]

/-- Witness for C9 at a concrete in-range index. -/
theorem const_get_elt_bounds_w :
    const_get_elt (const_struct [Value.int 8 1, Value.int 8 2] false) 0
      = [Value.int 8 1, Value.int 8 2][0]?
    ∧ [Value.int 8 1, Value.int 8 2][0]?.isSome = true :=
  (const_get_elt_bounds (Value.int 8 1) (Value.int 8 2)
    [Value.int 8 1, Value.int 8 2] false 0).2.2.1 (by simp) (by norm_num)

/-- Claim C8: `langcall` returns the unique definition identifier when the
lang item is present in the metadata; when absent it emits a fatal diagnostic
located at the given span if one was provided, and a location-less fatal
diagnostic otherwise, never returning a definition. -/
theorem langcall_present_or_fatal (items : LangItem → Option DefId) (sp : Span)
    (msg : String) (li : LangItem) :
    (∀ d, items li = some d →
        langcall items (some sp) msg li = Except.ok d
        ∧ langcall items none msg li = Except.ok d)
    ∧ (items li = none →
        (∃ m, langcall items (some sp) msg li
            = Except.error (FatalDiag.span_fatal sp m))
        ∧ (∃ m, langcall items none msg li
            = Except.error (FatalDiag.fatal m))) := by
  constructor
  · intro d hd
    constructor <;> simp [langcall, require, hd]
  · intro hn
    exact ⟨⟨msg ++ missing_item_msg, by simp [langcall, require, hn]⟩,
           ⟨msg ++ missing_item_msg, by simp [langcall, require, hn]⟩⟩

/-- Witness for C8 at a concrete metadata table: item 0 is present, item 1 is
absent. -/
theorem langcall_present_or_fatal_w :
    langcall itemsEx (some 3) msg0 0 = Except.ok 7
    ∧ (∃ m, langcall itemsEx (some 3) msg0 1
        = Except.error (FatalDiag.span_fatal 3 m)) :=
  ⟨((langcall_present_or_fatal itemsEx 3 msg0 0).1 7 (by decide)).1,
   ((langcall_present_or_fatal itemsEx 3 msg0 1).2 (by decide)).1⟩

/-- Recombining disjoint 64-bit limbs: `(hi <<< 64) ||| lo` is
`2 ^ 64 * hi + lo` whenever `lo` fits in 64 bits. -/
theorem or_limb (hi lo : Nat) (h : lo < 2 ^ 64) :
    (hi <<< 64) ||| lo = 2 ^ 64 * hi + lo := by
  rw [Nat.shiftLeft_eq, Nat.mul_comm]
  exact (Nat.mul_add_lt_is_or h hi).symm

/-- Claim C2 (amended): for every integer type of width `w ≤ 128` and every
`u < 2 ^ w`, `const_to_opt_u128(const_uint_big(t, u), false) = Some u`; and
the two-limb decomposition (low 64 bits, high 64 bits) used by
`const_uint_big` is exactly inverted by `hi_lo_to_u128`. The original claim's
quantification over every integer type fails because the backend reduces the
constant modulo the declared width (see the counterexample). -/
theorem const_uint_big_to_opt_u128 (w u : Nat) (hw : w ≤ 128) (hu : u < 2 ^ w) :
    (const_uint_big (LLType.Integer w) u).bind (fun v => const_to_opt_u128 v false)
      = some u
    ∧ (∀ x, x < 2 ^ 128 →
        hi_lo_to_u128 (x % 2 ^ 64) ((x >>> 64) % 2 ^ 64) = x) := by
  have hmul : (2 : Nat) ^ 64 * 2 ^ 64 = 2 ^ 128 := by
    rw [← pow_add]
  have hinv : ∀ x : Nat, x < 2 ^ 128 →
      hi_lo_to_u128 (x % 2 ^ 64) ((x >>> 64) % 2 ^ 64) = x := by
    intro x hx
    have hdiv : x / 2 ^ 64 < 2 ^ 64 := Nat.div_lt_of_lt_mul (by rw [hmul]; exact hx)
    rw [hi_lo_to_u128, Nat.shiftRight_eq_div_pow, Nat.mod_eq_of_lt hdiv,
      or_limb _ _ (Nat.mod_lt _ (by norm_num))]
    exact Nat.div_add_mod x (2 ^ 64)
  refine ⟨?_, hinv⟩
  have hu128 : u < 2 ^ 128 := lt_of_lt_of_le hu (Nat.pow_le_pow_right (by norm_num) hw)
  have hdivu : u / 2 ^ 64 < 2 ^ 64 := Nat.div_lt_of_lt_mul (by rw [hmul]; exact hu128)
  have hV : wordsValue [u % 2 ^ 64, (u >>> 64) % 2 ^ 64] = u := by
    show u % 2 ^ 64 % 2 ^ 64 + 2 ^ 64 * ((u >>> 64) % 2 ^ 64 % 2 ^ 64 + 2 ^ 64 * wordsValue []) = u
    rw [wordsValue, Nat.shiftRight_eq_div_pow, Nat.mod_mod_of_dvd _ dvd_rfl,
      Nat.mod_mod_of_dvd _ dvd_rfl, Nat.mod_eq_of_lt hdivu, Nat.mul_zero,
      Nat.add_zero]
    exact Nat.mod_add_div u (2 ^ 64)
  have hbig : const_uint_big (LLType.Integer w) u = some (Value.int w u) := by
    rw [const_uint_big, LLVMConstIntOfArbitraryPrecision, hV, Nat.mod_eq_of_lt hu]
  rw [hbig]
  show const_to_opt_u128 (Value.int w u) false = some u
  rw [const_to_opt_u128]
  simp only [is_const_integral, if_true]
  rw [LLVMRustConstInt128Get]
  simp only [hw, if_pos, if_false, Bool.false_eq_true, ite_false]
  rw [Nat.mod_eq_of_lt hu]
  exact congrArg some (hinv u hu128)

/-- Claim C2 counterexample: at the 8-bit integer type and `u = 256` (which
lies in `[0, 2^128-1]`), the round-trip yields `Some 0`, not `Some 256`: the
claim as stated over every integer type is false. -/
theorem const_uint_big_to_opt_u128_cex :
    (const_uint_big (LLType.Integer 8) 256).bind (fun v => const_to_opt_u128 v false)
      = some 0
    ∧ (const_uint_big (LLType.Integer 8) 256).bind (fun v => const_to_opt_u128 v false)
      ≠ some 256
    ∧ (256 : Nat) < 2 ^ 128 :=
  ⟨by decide, by decide, by norm_num⟩

/-- Witness for C2 (amended) at the full 128-bit width. -/
theorem const_uint_big_to_opt_u128_w :
    (const_uint_big (LLType.Integer 128) 5).bind (fun v => const_to_opt_u128 v false)
      = some 5
    ∧ (∀ x, x < 2 ^ 128 →
        hi_lo_to_u128 (x % 2 ^ 64) ((x >>> 64) % 2 ^ 64) = x) :=
  const_uint_big_to_opt_u128 128 5 (by norm_num) (by norm_num)

/-- The integer case of `shift_mask_val` without inversion: the constant
`w - 1` at the mask type. -/
theorem shift_mask_val_int_false (w : Nat) :
    shift_mask_val (LLType.Integer w) (LLType.Integer w) false
      = some (Value.int w (w - 1)) := by
  have h1 : w - 1 < 2 ^ w := lt_of_le_of_lt (Nat.sub_le w 1) (Nat.lt_two_pow w)
  show const_uint (LLType.Integer w) (w - 1) = some (Value.int w (w - 1))
  show some (Value.int w ((w - 1) % 2 ^ w)) = some (Value.int w (w - 1))
  rw [Nat.mod_eq_of_lt h1]

/-- Embeds `shift_mask_rhs` on an integer count of width `w` ANDs it with `w - 1`. -/
theorem shift_mask_rhs_int (w c : Nat) :
    shift_mask_rhs (Value.int w c) = some (Value.int w (c &&& (w - 1))) := by
  show (match shift_mask_val (LLType.Integer w) (LLType.Integer w) false with
        | none => none
        | some mask => build_and (Value.int w c) mask)
      = some (Value.int w (c &&& (w - 1)))
  rw [shift_mask_val_int_false]
  show build_and (Value.int w c) (Value.int w (w - 1))
      = some (Value.int w (c &&& (w - 1)))
  unfold build_and
  simp

/-- Evaluation of `build_unchecked_lshift` on integer operands of a
power-of-two width: the emitted `shl` uses the count modulo the width. -/
theorem lshift_int_eval (k a c : Nat) :
    build_unchecked_lshift (Value.int (2 ^ k) a) (Value.int (2 ^ k) c)
      = some (ShiftOp.shl,
          Value.int (2 ^ k) ((a <<< (c % 2 ^ k)) % 2 ^ 2 ^ k)) := by
  have hpos : 0 < 2 ^ k := Nat.two_pow_pos k
  have hkey : c % 2 ^ 2 ^ k &&& (2 ^ k - 1) = c % 2 ^ k := by
    rw [Nat.and_pow_two_sub_one_eq_mod]
    exact Nat.mod_mod_of_dvd c (pow_dvd_pow 2 (Nat.le_of_lt (Nat.lt_two_pow k)))
  show (match shift_mask_rhs (Value.int (2 ^ k) (c % 2 ^ 2 ^ k)) with
        | none => none
        | some rhs2 =>
          match build_shl (Value.int (2 ^ k) a) rhs2 with
          | none => none
          | some r => some (ShiftOp.shl, r))
      = some (ShiftOp.shl, Value.int (2 ^ k) ((a <<< (c % 2 ^ k)) % 2 ^ 2 ^ k))
  rw [shift_mask_rhs_int, hkey]
  show (match (if 2 ^ k = 2 ^ k ∧ c % 2 ^ k < 2 ^ k
          then some (Value.int (2 ^ k) ((a <<< (c % 2 ^ k)) % 2 ^ 2 ^ k))
          else none) with
        | none => none
        | some r => some (ShiftOp.shl, r))
      = some (ShiftOp.shl, Value.int (2 ^ k) ((a <<< (c % 2 ^ k)) % 2 ^ 2 ^ k))
  rw [if_pos ⟨rfl, Nat.mod_lt c hpos⟩]

/-- Claim C4: `build_unchecked_lshift` masks the shift-count operand with
`w - 1` by bitwise AND before emitting the shift, so for a power-of-two width
`w` its result equals the result for shift count `c mod w`. -/
theorem lshift_count_masked_mod (k a c w : Nat) (hw : w = 2 ^ k) :
    shift_mask_rhs (Value.int w c) = some (Value.int w (c &&& (w - 1)))
    ∧ build_unchecked_lshift (Value.int w a) (Value.int w c)
        = build_unchecked_lshift (Value.int w a) (Value.int w (c % w)) := by
  subst hw
  refine ⟨shift_mask_rhs_int _ _, ?_⟩
  rw [lshift_int_eval, lshift_int_eval, Nat.mod_mod_of_dvd c dvd_rfl]

/-- Witness for C4: on an 8-bit operand, shift count 255 behaves identically
to shift count `255 mod 8 = 7`. -/
theorem lshift_count_masked_mod_w :
    shift_mask_rhs (Value.int 8 255) = some (Value.int 8 (255 &&& (8 - 1)))
    ∧ build_unchecked_lshift (Value.int 8 3) (Value.int 8 255)
        = build_unchecked_lshift (Value.int 8 3) (Value.int 8 (255 % 8)) :=
  lshift_count_masked_mod 3 3 255 8 (by norm_num)

/-- Claim C5: `shift_mask_val` with `invert = false` yields the constant
`w - 1` on an integer type of width `w` (7 at 8 bits, 31 at 32 bits), with
`invert = true` its `w`-bit bitwise complement, and on a vector type it
computes the scalar lane mask recursively from the element type and splats it
across the mask type's vector length. -/
theorem shift_mask_val_values (w n1 n : Nat) (t mt : LLType) (hw : 0 < w)
    (hw63 : w ≤ 2 ^ 63) :
    shift_mask_val (LLType.Integer w) (LLType.Integer w) false
      = some (Value.int w (w - 1))
    ∧ shift_mask_val (LLType.Integer w) (LLType.Integer w) true
      = some (Value.int w ((2 ^ w - 1) - (w - 1)))
    ∧ shift_mask_val (LLType.Integer 8) (LLType.Integer 8) false
      = some (Value.int 8 7)
    ∧ shift_mask_val (LLType.Integer 32) (LLType.Integer 32) false
      = some (Value.int 32 31)
    ∧ shift_mask_val (LLType.Integer 8) (LLType.Integer 8) true
      = some (Value.int 8 (2 ^ 8 - 1 - 7))
    ∧ (∀ inv, shift_mask_val (LLType.Vector n1 t) (LLType.Vector n mt) inv
        = (shift_mask_val t mt inv).map (fun m => vector_splat n m)) := by
  have hPw : w < 2 ^ w := Nat.lt_two_pow w
  refine ⟨shift_mask_val_int_false w, ?_, rfl, rfl, rfl, ?_⟩
  · show const_int (LLType.Integer w) (i64_of_u64 (u64_not (w - 1)))
      = some (Value.int w ((2 ^ w - 1) - (w - 1)))
    have hnot : u64_not (w - 1) = 2 ^ 64 - w := by
      unfold u64_not
      have hw64 : w - 1 < 2 ^ 64 := by
        have : (2 : Nat) ^ 63 < 2 ^ 64 := by norm_num
        omega
      rw [Nat.mod_eq_of_lt hw64]
      omega
    have hi64 : i64_of_u64 (2 ^ 64 - w) = (((2 ^ 64 - w : Nat)) : Int) - 2 ^ 64 := by
      unfold i64_of_u64
      have hm : (2 ^ 64 - w) % 2 ^ 64 = 2 ^ 64 - w := Nat.mod_eq_of_lt (by omega)
      rw [hm, if_neg (by omega)]
    rw [hnot, hi64]
    show some (Value.int w (Int.toNat
      (((((2 ^ 64 - w : Nat)) : Int) - 2 ^ 64) % ((2 ^ w : Nat) : Int)))) = _
    have hcast : (((2 ^ 64 - w : Nat)) : Int) - 2 ^ 64 = -(w : Int) := by
      have hwle : w ≤ 2 ^ 64 := by omega
      rw [Nat.cast_sub hwle]
      push_cast
      ring
    have hmod : (-(w : Int)) % ((2 ^ w : Nat) : Int) = ((2 ^ w - w : Nat) : Int) := by
      have hsplit : (-(w : Int))
          = ((2 ^ w - w : Nat) : Int) + (-1) * ((2 ^ w : Nat) : Int) := by
        rw [Nat.cast_sub (Nat.le_of_lt hPw)]
        ring
      rw [hsplit, Int.add_mul_emod_self]
      refine Int.emod_eq_of_lt (by positivity) ?_
      have : 2 ^ w - w < 2 ^ w := by omega
      exact_mod_cast this
    rw [hcast, hmod]
    have : (((2 ^ w - w : Nat) : Int)).toNat = 2 ^ w - w := Int.toNat_natCast _
    rw [this]
    have : 2 ^ w - w = (2 ^ w - 1) - (w - 1) := by omega
    rw [this]
  · intro inv
    cases hm : shift_mask_val t mt inv <;>
      simp [shift_mask_val, element_type, vector_length, hm]

/-- Witness for C5 at width 8: the inverted mask is the 8-bit complement of
7. -/
theorem shift_mask_val_values_w :
    shift_mask_val (LLType.Integer 8) (LLType.Integer 8) true
      = some (Value.int 8 ((2 ^ 8 - 1) - (8 - 1))) :=
  (shift_mask_val_values 8 2 2 (LLType.Integer 8) (LLType.Integer 8)
    (by norm_num) (by norm_num)).2.1

/-- Claim C6: the right-shift instruction chosen by `build_unchecked_rshift`
depends only on the signedness of the shifted operand's logical type (signed
yields `ashr`, unsigned yields `lshr`), while `build_unchecked_lshift` emits
`shl` regardless. -/
theorem rshift_dispatches_on_signedness :
    (∀ (lhs_t : RustIntTy) (lhs rhs : Value) (op : ShiftOp) (v : Value),
        build_unchecked_rshift lhs_t lhs rhs = some (op, v) →
        op = (if lhs_t.is_signed then ShiftOp.ashr else ShiftOp.lshr))
    ∧ (∀ (lhs rhs : Value) (op : ShiftOp) (v : Value),
        build_unchecked_lshift lhs rhs = some (op, v) → op = ShiftOp.shl) := by
  constructor
  · intro lhs_t lhs rhs op v h
    unfold build_unchecked_rshift at h
    split at h
    · exact absurd h (by simp)
    · split at h
      · exact absurd h (by simp)
      · split at h
        case isTrue hs =>
          split at h
          · exact absurd h (by simp)
          · injection h with h1
            injection h1 with ha hb
            rw [if_pos hs, ← ha]
        case isFalse hs =>
          split at h
          · exact absurd h (by simp)
          · injection h with h1
            injection h1 with ha hb
            rw [if_neg hs, ← ha]
  · intro lhs rhs op v h
    unfold build_unchecked_lshift at h
    split at h
    · exact absurd h (by simp)
    · split at h
      · exact absurd h (by simp)
      · split at h
        · exact absurd h (by simp)
        · injection h with h1
          injection h1 with ha hb
          exact ha.symm

/-- Witness for C6 at concrete signed and unsigned emissions. -/
theorem rshift_dispatches_on_signedness_w :
    ShiftOp.ashr
      = (if (RustIntTy.signed 8).is_signed then ShiftOp.ashr else ShiftOp.lshr)
    ∧ ShiftOp.shl = ShiftOp.shl :=
  ⟨rshift_dispatches_on_signedness.1 (RustIntTy.signed 8) (Value.int 8 2)
      (Value.int 8 1) ShiftOp.ashr (Value.int 8 1) rfl,
   rshift_dispatches_on_signedness.2 (Value.int 8 2) (Value.int 8 1)
      ShiftOp.shl (Value.int 8 4) rfl⟩

/-- A successful cache lookup returns a pair present in the cache list. -/
theorem findCache_some_mem (l : List (Content × Nat)) (s : Content) (g : Nat)
    (h : findCache l s = some g) : (s, g) ∈ l := by
  induction l with
  | nil => exact absurd h (by simp [findCache])
  | cons p rest ih =>
    rcases p with ⟨k, g2⟩
    by_cases e : k = s
    · subst e
      simp only [findCache, if_pos rfl] at h
      injection h with h2
      subst h2
      exact List.mem_cons_self _ _
    · simp only [findCache, if_neg e] at h
      exact List.mem_cons_of_mem _ (ih h)

/-- Embeds `const_cstr` on a cached content returns the cached handle, unchanged
state. -/
theorem const_cstr_hit (st : CxState) (s : Content) (b : Bool) (g : Nat)
    (h : findCache st.const_cstr_cache s = some g) :
    const_cstr st s b = (g, st) := by
  simp [const_cstr, h]

/-- Embeds `const_cstr` on an uncached content returns the fresh symbol and the
state extended with the new cache entry, global definition, and log entry. -/
theorem const_cstr_miss (st : CxState) (s : Content) (b : Bool)
    (h : findCache st.const_cstr_cache s = none) :
    const_cstr st s b
      = (st.symbol_counter,
         ⟨(s, st.symbol_counter) :: st.const_cstr_cache,
          (st.symbol_counter, LLVMConstStringInContext s (!b)) :: st.globals,
          st.symbol_counter + 1, s :: st.defined_log⟩) := by
  simp [const_cstr, h]

/-- The initial compilation context satisfies the cache invariant. -/
theorem cacheInv_init : CacheInv initState := by
  refine ⟨?_, ?_, ?_, ?_, ?_⟩
  · intro p hp
    exact absurd hp (by simp [initState])
  · intro p hp
    exact absurd hp (by simp [initState])
  · intro s1 s2 g1 g2 hg1 hg2 heq
    exact absurd hg1 (by simp [initState, findCache])
  · exact List.nodup_nil
  · intro s
    simp [initState, findCache]

/-- One `const_cstr` call preserves the cache invariant. -/
theorem cacheInv_const_cstr (st : CxState) (s : Content) (b : Bool)
    (hinv : CacheInv st) : CacheInv (const_cstr st s b).2 := by
  obtain ⟨h1, h2, h3, h4, h5⟩ := hinv
  rcases hf : findCache st.const_cstr_cache s with _ | g
  · rw [const_cstr_miss st s b hf]
    dsimp only
    refine ⟨?_, ?_, ?_, ?_, ?_⟩
    · intro p hp
      rcases List.mem_cons.mp hp with rfl | hp2
      · show st.symbol_counter < st.symbol_counter + 1
        omega
      · have := h1 p hp2
        show p.2 < st.symbol_counter + 1
        omega
    · intro p hp
      rcases List.mem_cons.mp hp with rfl | hp2
      · show st.symbol_counter < st.symbol_counter + 1
        omega
      · have := h2 p hp2
        show p.1 < st.symbol_counter + 1
        omega
    · intro s1 s2 g1 g2 hg1 hg2 heq
      simp only [findCache] at hg1 hg2
      by_cases e1 : s = s1 <;> by_cases e2 : s = s2
      · rw [← e1, ← e2]
      · rw [if_pos e1] at hg1
        rw [if_neg e2] at hg2
        injection hg1 with hg1e
        have hmem := findCache_some_mem _ _ _ hg2
        have := h1 _ hmem
        omega
      · rw [if_neg e1] at hg1
        rw [if_pos e2] at hg2
        injection hg2 with hg2e
        have hmem := findCache_some_mem _ _ _ hg1
        have := h1 _ hmem
        omega
      · rw [if_neg e1] at hg1
        rw [if_neg e2] at hg2
        exact h3 s1 s2 g1 g2 hg1 hg2 heq
    · refine List.nodup_cons.mpr ⟨?_, h4⟩
      intro hm
      have hx := (h5 s).1 hm
      rw [hf] at hx
      exact absurd hx (by simp)
    · intro s2
      by_cases e : s = s2
      · subst e
        simp [findCache]
      · simp only [findCache, if_neg e, List.mem_cons]
        constructor
        · rintro (rfl | hmem)
          · exact absurd rfl e
          · exact (h5 s2).1 hmem
        · intro hs
          exact Or.inr ((h5 s2).2 hs)
  · rw [const_cstr_hit st s b g hf]
    exact ⟨h1, h2, h3, h4, h5⟩

/-- Any request sequence preserves the cache invariant. -/
theorem cacheInv_runCstr (st : CxState) (rs : List (Content × Bool))
    (hinv : CacheInv st) : CacheInv (runCstr st rs) := by
  induction rs generalizing st with
  | nil => exact hinv
  | cons r rest ih =>
    exact ih (const_cstr (st) r.1 r.2).2 (cacheInv_const_cstr st r.1 r.2 hinv)

/-- After `const_cstr st s b`, the cache resolves `s` to the returned
handle. -/
theorem const_cstr_found (st : CxState) (s : Content) (b : Bool) :
    findCache (const_cstr st s b).2.const_cstr_cache s
      = some (const_cstr st s b).1 := by
  rcases hf : findCache st.const_cstr_cache s with _ | g
  · rw [const_cstr_miss st s b hf]
    simp [findCache]
  · rw [const_cstr_hit st s b g hf]
    exact hf

/-- A cache entry survives any later `const_cstr` call: entries are inserted
only for absent contents and never removed or overwritten. -/
theorem findCache_persist (st : CxState) (s : Content) (g : Nat) (s2 : Content)
    (b : Bool) (h : findCache st.const_cstr_cache s = some g) :
    findCache (const_cstr st s2 b).2.const_cstr_cache s = some g := by
  rcases hf : findCache st.const_cstr_cache s2 with _ | g2
  · rw [const_cstr_miss st s2 b hf]
    simp only [findCache]
    by_cases e : s2 = s
    · subst e
      rw [h] at hf
      cases hf
    · rw [if_neg e]
      exact h
  · rw [const_cstr_hit st s2 b g2 hf]
    exact h

/-- A cache entry survives any later request sequence. -/
theorem findCache_persist_run (st : CxState) (rs : List (Content × Bool))
    (s : Content) (g : Nat) (h : findCache st.const_cstr_cache s = some g) :
    findCache (runCstr st rs).const_cstr_cache s = some g := by
  induction rs generalizing st with
  | nil => exact h
  | cons r rest ih =>
    exact ih (const_cstr st r.1 r.2).2 (findCache_persist st s g r.1 r.2 h)

/-- A defined global with an id below the counter survives any later
`const_cstr` call, its initializer untouched, and stays below the counter. -/
theorem global_persist (st : CxState) (s2 : Content) (b : Bool) (g : Nat)
    (v : Value) (hb : g < st.symbol_counter)
    (hg : findGlobal st.globals g = some v) :
    findGlobal (const_cstr st s2 b).2.globals g = some v
    ∧ g < (const_cstr st s2 b).2.symbol_counter := by
  rcases hf : findCache st.const_cstr_cache s2 with _ | g2
  · rw [const_cstr_miss st s2 b hf]
    constructor
    · simp only [findGlobal]
      rw [if_neg (by omega)]
      exact hg
    · show g < st.symbol_counter + 1
      omega
  · rw [const_cstr_hit st s2 b g2 hf]
    exact ⟨hg, hb⟩

/-- A defined global survives any later request sequence. -/
theorem global_persist_run (st : CxState) (rs : List (Content × Bool)) (g : Nat)
    (v : Value) (hb : g < st.symbol_counter)
    (hg : findGlobal st.globals g = some v) :
    findGlobal (runCstr st rs).globals g = some v
    ∧ g < (runCstr st rs).symbol_counter := by
  induction rs generalizing st with
  | nil => exact ⟨hg, hb⟩
  | cons r rest ih =>
    have step := global_persist st r.1 r.2 g v hb hg
    exact ih (const_cstr st r.1 r.2).2 step.2 step.1

/-- Claim C1: within one compilation context, two `const_cstr` calls return
the identical global handle exactly when their contents are equal (so
distinct contents give distinct handles), and — regardless of call order or
count — at most one global definition is ever created per distinct content
(the definition log of every reachable context has no duplicates). -/
theorem const_cstr_content_dedup (rs rs3 : List (Content × Bool))
    (c1 c2 : Content) (b1 b2 : Bool) :
    ((const_cstr (runCstr initState rs) c1 b1).1
        = (const_cstr (runCstr (const_cstr (runCstr initState rs) c1 b1).2 rs3)
            c2 b2).1
      ↔ c1 = c2)
    ∧ (runCstr initState rs).defined_log.Nodup := by
  have hinv : CacheInv (runCstr initState rs) :=
    cacheInv_runCstr initState rs cacheInv_init
  have hinv2 : CacheInv (runCstr (const_cstr (runCstr initState rs) c1 b1).2 rs3) :=
    cacheInv_runCstr _ rs3 (cacheInv_const_cstr (runCstr initState rs) c1 b1 hinv)
  have hfound := findCache_persist_run (const_cstr (runCstr initState rs) c1 b1).2
    rs3 c1 _ (const_cstr_found (runCstr initState rs) c1 b1)
  refine ⟨⟨?_, ?_⟩, hinv.2.2.2.1⟩
  · intro heq
    by_contra hne
    rcases hf2 : findCache
        (runCstr (const_cstr (runCstr initState rs) c1 b1).2 rs3).const_cstr_cache c2
      with _ | g2
    · have h2nd : (const_cstr (runCstr (const_cstr (runCstr initState rs) c1 b1).2 rs3)
            c2 b2).1
          = (runCstr (const_cstr (runCstr initState rs) c1 b1).2 rs3).symbol_counter := by
        rw [const_cstr_miss _ c2 b2 hf2]
      have hmem := findCache_some_mem _ _ _ hfound
      have hlt := hinv2.1 _ hmem
      rw [h2nd] at heq
      omega
    · have h2nd : (const_cstr (runCstr (const_cstr (runCstr initState rs) c1 b1).2 rs3)
            c2 b2).1 = g2 := by
        rw [const_cstr_hit _ c2 b2 g2 hf2]
      rw [h2nd] at heq
      exact hne (hinv2.2.2.1 c1 c2 _ g2 hfound hf2 heq)
  · intro heq
    subst heq
    rw [const_cstr_hit _ c1 b2 _ hfound]

/-- Witness for C1 at a concrete repeated content with one intervening
request. -/
theorem const_cstr_content_dedup_w :
    ((const_cstr (runCstr initState []) [65] true).1
        = (const_cstr (runCstr (const_cstr (runCstr initState []) [65] true).2
            [([66], false)]) [65] false).1
      ↔ ([65] : Content) = [65])
    ∧ (runCstr initState []).defined_log.Nodup :=
  const_cstr_content_dedup [] [([66], false)] [65] [65] true false

/-- Claim C10: the `const_cstr` cache is keyed only by content: after a first
call with flag `b1`, a later call for the same content with any flag `b2` is a
pure cache hit — it returns the original handle, leaves the context unchanged
(so `b2` has no effect on the returned global), and that handle's global
definition still holds the string built with `b1`'s termination. -/
theorem const_cstr_flag_not_keyed (rs rs2 : List (Content × Bool)) (s : Content)
    (b1 b2 : Bool)
    (h : findCache (runCstr initState rs).const_cstr_cache s = none) :
    (const_cstr (runCstr (const_cstr (runCstr initState rs) s b1).2 rs2) s b2).1
      = (const_cstr (runCstr initState rs) s b1).1
    ∧ (const_cstr (runCstr (const_cstr (runCstr initState rs) s b1).2 rs2) s b2).2
      = runCstr (const_cstr (runCstr initState rs) s b1).2 rs2
    ∧ findGlobal (runCstr (const_cstr (runCstr initState rs) s b1).2 rs2).globals
        (const_cstr (runCstr initState rs) s b1).1
      = some (LLVMConstStringInContext s (!b1)) := by
  have hmiss := const_cstr_miss (runCstr initState rs) s b1 h
  have hst1glob : findGlobal (const_cstr (runCstr initState rs) s b1).2.globals
      (const_cstr (runCstr initState rs) s b1).1
      = some (LLVMConstStringInContext s (!b1)) := by
    rw [hmiss]
    simp [findGlobal]
  have hst1lt : (const_cstr (runCstr initState rs) s b1).1
      < (const_cstr (runCstr initState rs) s b1).2.symbol_counter := by
    rw [hmiss]
    show (runCstr initState rs).symbol_counter
      < (runCstr initState rs).symbol_counter + 1
    omega
  have hcache1 := const_cstr_found (runCstr initState rs) s b1
  have hcache2 := findCache_persist_run (const_cstr (runCstr initState rs) s b1).2
    rs2 s _ hcache1
  have hglob2 := global_persist_run (const_cstr (runCstr initState rs) s b1).2
    rs2 _ _ hst1lt hst1glob
  have hhit := const_cstr_hit (runCstr (const_cstr (runCstr initState rs) s b1).2 rs2)
    s b2 _ hcache2
  exact ⟨by rw [hhit], by rw [hhit], hglob2.1⟩

/-- Witness for C10 at a concrete first call, intervening request, and
re-request with the opposite flag. -/
theorem const_cstr_flag_not_keyed_w :
    (const_cstr (runCstr (const_cstr (runCstr initState []) [65] true).2
        [([66], false)]) [65] false).1
      = (const_cstr (runCstr initState []) [65] true).1
    ∧ (const_cstr (runCstr (const_cstr (runCstr initState []) [65] true).2
        [([66], false)]) [65] false).2
      = runCstr (const_cstr (runCstr initState []) [65] true).2 [([66], false)]
    ∧ findGlobal (runCstr (const_cstr (runCstr initState []) [65] true).2
        [([66], false)]).globals
        (const_cstr (runCstr initState []) [65] true).1
      = some (LLVMConstStringInContext [65] (!true)) :=
  const_cstr_flag_not_keyed [] [([66], false)] [65] true false rfl

end Codegen
